import Mathlib

/-!
Verification of the exception-reporting core of `src/c++/src/kj/exception.c++`
(structured `Exception` values, stringification, the thread-local
`ExceptionCallback` override stack and the terminal `RootExceptionCallback`
policy), as a shallow embedding in Lean 4.

Conventions of the embedding:
* `const char*` / `String` data becomes Lean `String`; `int` becomes `Int`.
* The captured stack trace (`void* trace[16]` plus `traceCount`) becomes a
  `List Nat` of raw addresses; the platform's textual rendering of one address
  is an explicit parameter `renderAddr : Nat -> String` of every rendering
  function, because the excerpt treats address formatting as an external
  collaborator.
* The owned singly linked `Exception::Context` chain becomes a Lean list whose
  head is the innermost (most recently attached) frame, matching the order in
  which `wrapContext` prepends and stringification walks the chain.  A second,
  explicit-heap model of the chain is introduced further below to reason about
  deep copying versus aliasing.
-/

namespace KjException

/-- Modelled from the spec: `Exception::Nature` is declared in `exception.h`,
which is not part of the excerpt; the spec fixes the declaration order as
PRECONDITION_VIOLATION, INTERNAL_BUG, OS_ERROR, NETWORK_FAILURE, UNCLASSIFIED,
which is the order the `NATURE_STRINGS` table in `exception.c++` is indexed
by. -/
inductive Nature where
  | PRECONDITION_VIOLATION
  | INTERNAL_BUG
  | OS_ERROR
  | NETWORK_FAILURE
  | UNCLASSIFIED
deriving DecidableEq, Repr

/-- Modelled from the spec: `Exception::Durability` is declared in
`exception.h`, which is not part of the excerpt; the spec fixes the
declaration order as TEMPORARY, PERMANENT, the order the
`DURABILITY_STRINGS` table is indexed by. -/
inductive Durability where
  | TEMPORARY
  | PERMANENT
deriving DecidableEq, Repr

/-- Source `KJ_STRINGIFY(Exception::Nature)`: the `NATURE_STRINGS` table of
`exception.c++`, indexed by the declaration order of `Nature`. -/
def natureText : Nature → String
  | .PRECONDITION_VIOLATION => "requirement not met"
  | .INTERNAL_BUG => "bug in code"
  | .OS_ERROR => "error from OS"
  | .NETWORK_FAILURE => "network failure"
  | .UNCLASSIFIED => "error"

/-- Source `KJ_STRINGIFY(Exception::Durability)`: the `DURABILITY_STRINGS` table. -/
def durabilityText : Durability → String
  | .TEMPORARY => "temporary"
  | .PERMANENT => "permanent"

/-- One `Exception::Context` frame: source file (borrowed pointer in C++),
line, owned description.  The link to the next frame is represented by list
structure in the pure model. -/
structure Context where
  file : String
  line : Int
  description : String
deriving DecidableEq, Repr

/-- The `kj::Exception` value.  `context` lists the frames innermost
(most recently attached) first, exactly the order of the owned
`Maybe<Own<Context>>` chain. -/
structure Exception where
  file : String
  line : Int
  nature : Nature
  durability : Durability
  description : String
  trace : List Nat
  context : List Context
deriving DecidableEq, Repr

/-- Constructor `Exception::Exception(...)`: stores all fields unchanged, captures a
best-effort trace (`backtrace(trace, 16)` stores at most 16 return addresses
out of whatever the platform capability `osTrace` offers; possibly none), and
starts with an empty context chain.  Total: construction cannot fail. -/
def mkException (nature : Nature) (durability : Durability) (file : String)
    (line : Int) (description : String) (osTrace : List Nat) : Exception :=
  { file := file, line := line, nature := nature, durability := durability,
    description := description, trace := osTrace.take 16, context := [] }

/-- Method `Exception::wrapContext`: prepends a new frame whose "next" is the
previous chain head. -/
def wrapContext (e : Exception) (file : String) (line : Int)
    (description : String) : Exception :=
  { e with context := ⟨file, line, description⟩ :: e.context }

/-- Helper `strArray(…, sep)`: concatenation with `sep` between consecutive
elements (no trailing separator). -/
def joinWith (sep : String) : List String → String
  | [] => ""
  | [x] => x
  | x :: y :: rest => x ++ sep ++ joinWith sep (y :: rest)

/-- Helper `strArray(…, "")` — joining with the empty separator is plain
concatenation. -/
def concatAll : List String → String
  | [] => ""
  | x :: rest => x ++ concatAll rest

/-- One context line as built in `KJ_STRINGIFY(const Exception&)`:
`str(c->file, ":", c->line, ": context: ", c->description, "\n")`. -/
def contextLine (c : Context) : String :=
  c.file ++ ":" ++ toString c.line ++ ": context: " ++ c.description ++ "\n"

/-- Source `KJ_STRINGIFY(const Exception&)`: the full rendering.  The C++ walks the
context chain from the head and concatenates one line per frame in that
(innermost-attached-first) order, then appends
`file : ":" : line : ": " : nature` , `" (temporary)"` when durability is
TEMPORARY, `": "` when the description is non-empty, the description itself
unconditionally (a no-op when empty), and `"\nstack: "` with the captured
addresses joined by single spaces. -/
def stringifyException (renderAddr : Nat → String) (e : Exception) : String :=
  concatAll (e.context.map contextLine)
    ++ e.file ++ ":" ++ toString e.line ++ ": " ++ natureText e.nature
    ++ (if e.durability = Durability.TEMPORARY then " (temporary)" else "")
    ++ (if e.description = "" then "" else ": ") ++ e.description
    ++ "\nstack: " ++ joinWith " " (e.trace.map renderAddr)

/-- The spec's own wording of the rendering (§4.2), written independently of
the implementation: one line per stored frame, each
`<file>:<line>: context: <description>` followed by a newline. -/
def specContextLines : List Context → String
  | [] => ""
  | c :: rest =>
      (c.file ++ ":" ++ toString c.line ++ ": context: " ++ c.description ++ "\n")
        ++ specContextLines rest

/-- The spec's rendering continued: location, nature text, the two optional
suffixes, and the stack line. -/
def specRenderException (renderAddr : Nat → String) (e : Exception) : String :=
  specContextLines e.context
    ++ e.file ++ ":" ++ toString e.line ++ ": " ++ natureText e.nature
    ++ (if e.durability = Durability.TEMPORARY then " (temporary)" else "")
    ++ (if e.description ≠ "" then ": " ++ e.description else "")
    ++ "\nstack: " ++ joinWith " " (e.trace.map renderAddr)

/-!
The Callback override stack (`ExceptionCallback`).  Each live callback is a
C++ object; we name objects by distinct numeric ids, with id 0 reserved for
the lazily-constructed `RootExceptionCallback` singleton.  The thread-local
`threadLocalCallback` pointer becomes an `Option Nat` (`none` = the C++ null
initial state).  A callback object stores the id of the callback its `next`
reference denotes; the root references itself.
-/

/-- The id of the process-wide `RootExceptionCallback` singleton
(`defaultCallback` in `getExceptionCallback`). -/
def rootId : Nat := 0

/-- One `ExceptionCallback` object: its identity and the identity of the
callback bound to its `ExceptionCallback& next` reference member. -/
structure Callback where
  id : Nat
  next : Nat
deriving DecidableEq, Repr

/-- Lookup `getExceptionCallback()`: the scoped thread-local callback when set,
else the root singleton. -/
def getCB (tlc : Option Nat) : Nat :=
  tlc.getD rootId

/-- The stack-residence check of `ExceptionCallback::ExceptionCallback()`:
`offset = (char*)this - &stackVar; KJ_ASSERT(offset < 4096 && offset > -4096)`.
`true` iff the assertion passes. -/
def stackCheckPasses (thisAddr stackVarAddr : Int) : Bool :=
  decide (thisAddr - stackVarAddr < 4096 ∧ thisAddr - stackVarAddr > -4096)

/-- The default `ExceptionCallback()` constructor: binds `next` to
`getExceptionCallback()`, asserts the new object lives on the calling stack
(`none` models the fatal assertion failure), then installs itself as the
thread-local callback.  Returns the constructed object and the updated
thread-local pointer. -/
def installNested (thisAddr stackVarAddr : Int) (tlc : Option Nat)
    (newId : Nat) : Option (Callback × Option Nat) :=
  if stackCheckPasses thisAddr stackVarAddr then
    some (⟨newId, getCB tlc⟩, some newId)
  else
    none

/-- The protected `ExceptionCallback(ExceptionCallback& next)` constructor as
used by `RootExceptionCallback(): ExceptionCallback(*this)`: next = self, no
stack-residence check, and the thread-local pointer is left untouched. -/
def installRoot (tlc : Option Nat) : Callback × Option Nat :=
  (⟨rootId, rootId⟩, tlc)

/-- Destructor `ExceptionCallback::~ExceptionCallback()`: when the object is not the
self-referential root, restore the thread-local pointer to its `next`. -/
def destroyCB (cb : Callback) (tlc : Option Nat) : Option Nat :=
  if cb.next = cb.id then tlc else some cb.next

/-- Construct a sequence of nested overrides, one per id in order, each
binding `next` to the callback current at its construction time (the
stack-residence assertion is assumed to pass: ids stand for distinct live
stack objects).  Returns the constructed objects in construction order and
the final thread-local pointer. -/
def installAll (tlc : Option Nat) : List Nat → List Callback × Option Nat
  | [] => ([], tlc)
  | i :: rest =>
      let built := installAll (some i) rest
      (⟨i, getCB tlc⟩ :: built.1, built.2)

/-- Destroy a list of callbacks given in construction order, destroying in
reverse (LIFO) order: later constructions are destroyed first. -/
def destroyAll (cbs : List Callback) (tlc : Option Nat) : Option Nat :=
  match cbs with
  | [] => tlc
  | cb :: rest => destroyCB cb (destroyAll rest tlc)

/-!
The terminal `RootExceptionCallback` policy.  Its observable behaviour is the
list of effects it performs: either raising one throwable value or making one
`logMessage` call into the current callback chain.  `KJ_NO_EXCEPTIONS` (the
build-wide flag disabling throwable propagation) and the result of
`std::uncaught_exception()` are explicit boolean inputs.
-/

/-- One observable effect of the root policy. -/
inductive RPEvent where
  | raised (e : Exception)
  | logCall (target : Nat) (file : String) (line : Int) (contextDepth : Int)
      (text : String)
deriving DecidableEq, Repr

/-- Whether an event is a `logMessage` call. -/
def RPEvent.isLog : RPEvent → Bool
  | .logCall _ _ _ _ _ => true
  | .raised _ => false

/-- Whether an event raises a throwable value. -/
def RPEvent.isRaise : RPEvent → Bool
  | .raised _ => true
  | .logCall _ _ _ _ _ => false

/-- The text built by `RootExceptionCallback::logException`: nature text,
`" (temporary)"` when TEMPORARY, `": "` and the description when non-empty,
then the stack line.  Note: no context lines and no `file:line` location
(those are passed to `logMessage` as separate arguments). -/
def logExceptionText (renderAddr : Nat → String) (e : Exception) : String :=
  natureText e.nature
    ++ (if e.durability = Durability.TEMPORARY then " (temporary)" else "")
    ++ (if e.description = "" then "" else ": ") ++ e.description
    ++ "\nstack: " ++ joinWith " " (e.trace.map renderAddr)

/-- Method `RootExceptionCallback::logException`: one `logMessage` call dispatched
to `getExceptionCallback()` — the thread's *current* callback, re-entering
the top of the chain — with the exception's file and line, contextDepth 0,
and the text above. -/
def rootLogException (renderAddr : Nat → String) (tlc : Option Nat)
    (e : Exception) : RPEvent :=
  .logCall (getCB tlc) e.file e.line 0 (logExceptionText renderAddr e)

/-- Method `RootExceptionCallback::onRecoverableException`: with `KJ_NO_EXCEPTIONS`
the preprocessor keeps only the logging path; otherwise
`std::uncaught_exception()` chooses between logging and throwing
`ExceptionImpl(mv(exception))`. -/
def rootOnRecoverable (noExceptions unwinding : Bool)
    (renderAddr : Nat → String) (tlc : Option Nat) (e : Exception) :
    List RPEvent :=
  if noExceptions then
    [rootLogException renderAddr tlc e]
  else if unwinding then
    [rootLogException renderAddr tlc e]
  else
    [.raised e]

/-- Method `RootExceptionCallback::onFatalException`: with `KJ_NO_EXCEPTIONS` it
logs; otherwise it throws unconditionally — the `unwinding` state is never
consulted (the parameter is ignored, mirroring the absence of any
`std::uncaught_exception()` call). -/
def rootOnFatal (noExceptions : Bool) (_unwinding : Bool)
    (renderAddr : Nat → String) (tlc : Option Nat) (e : Exception) :
    List RPEvent :=
  if noExceptions then
    [rootLogException renderAddr tlc e]
  else
    [.raised e]

/-!
`RootExceptionCallback::logMessage`: indentation and the `write` retry loop.
The diagnostic stream is an external collaborator; one run of it is modelled
by the list of successive `write` return values (`ssize_t` results, one per
call).  The loop's observable result is the still-unwritten remainder of the
text at the moment the function returns (`some rem`), or `none` when the
modelled response list is exhausted while the loop is still running.
-/

/-- The indentation step of `RootExceptionCallback::logMessage`:
`if (contextDepth > 0) text = str(RepeatChar('_', contextDepth), mv(text))`. -/
def indentText (contextDepth : Int) (text : String) : String :=
  if contextDepth > 0 then
    String.mk (List.replicate contextDepth.toNat '_') ++ text
  else
    text

/-- The `while (text != nullptr)` retry loop.  `textNonEmpty` is the loop
guard's (constant) condition: `text` is the full indented message and is
never modified inside the loop — only the `textPtr` slice (`rem`) shrinks.
A response `n <= 0` makes the function return at once ("stderr is broken.
Give up."); a positive `n` drops `n` bytes from the remainder and retries. -/
def writeLoop (textNonEmpty : Bool) : List Char → List Int → Option (List Char)
  | rem, [] => if textNonEmpty then none else some rem
  | rem, n :: rest =>
      if textNonEmpty then
        if n ≤ 0 then some rem
        else writeLoop textNonEmpty (rem.drop n.toNat) rest
      else
        some rem

/-- Method `RootExceptionCallback::logMessage` in full: indent, then run the write
loop over the indented text. -/
def rootLogMessage (contextDepth : Int) (text : String) (responses : List Int) :
    Option (List Char) :=
  writeLoop (!(indentText contextDepth text).isEmpty)
    (indentText contextDepth text).toList responses

/-!
Explicit-heap model of the `Exception::Context` chain, to reason about deep
copying versus aliasing.  Chain nodes live in a `Store` (a list of nodes,
addressed by index; allocation appends at the end), and an exception holds an
optional address.  Every reachable node's `next` address is strictly smaller
than the node's own address (`StoreWF`), which the operations below preserve
and which makes chains acyclic.
-/

/-- One heap-allocated `Exception::Context` node. -/
structure CNode where
  file : String
  line : Int
  description : String
  next : Option Nat
deriving DecidableEq, Repr

/-- The heap of context nodes; an address is an index, allocation appends. -/
abbrev Store := List CNode

/-- An `Exception` whose context chain lives in a `Store`. -/
structure HExc where
  file : String
  line : Int
  nature : Nature
  durability : Durability
  description : String
  trace : List Nat
  context : Option Nat
deriving DecidableEq, Repr

/-- Acyclicity invariant: every stored node points only to strictly smaller
addresses. -/
def StoreWF (s : Store) : Prop :=
  ∀ i node j, s.get? i = some node → node.next = some j → j < i

/-- A context pointer is valid when it addresses an allocated node. -/
def PtrOK (s : Store) (p : Option Nat) : Prop :=
  ∀ i, p = some i → i < s.length

/-- Walk a chain in the store, collecting the frames in stored order.  The
fuel argument makes the walk total; `s.length` fuel is always enough for a
well-formed store. -/
def readChain (s : Store) : Nat → Option Nat → List Context
  | _, none => []
  | 0, some _ => []
  | fuel + 1, some i =>
      match s.get? i with
      | none => []
      | some node =>
          ⟨node.file, node.line, node.description⟩ :: readChain s fuel node.next

/-- Copying: `Exception::Context::Context(const Context&)` iterated over a chain:
deep-copy the node's `next` chain, then allocate a fresh node with the same
file, line and description whose `next` is the copied chain.  Returns the
grown store and the address of the copied head. -/
def copyChain (s : Store) : Nat → Option Nat → Store × Option Nat
  | _, none => (s, none)
  | 0, some _ => (s, none)
  | fuel + 1, some i =>
      match s.get? i with
      | none => (s, none)
      | some node =>
          let tail := copyChain s fuel node.next
          (tail.1 ++ [⟨node.file, node.line, node.description, tail.2⟩],
           some tail.1.length)

/-- Copy constructor `Exception::Exception(const Exception&)`: all scalar fields and the
description are copied by value, the trace buffer is copied by count, and the
context chain is deep-copied (`context = heap(**c)`), allocating fresh nodes
in the store. -/
def copyHExc (s : Store) (e : HExc) : Store × HExc :=
  ((copyChain s s.length e.context).1,
   { e with context := (copyChain s s.length e.context).2 })

/-- Method `Exception::wrapContext` on the heap model: allocate one fresh node whose
`next` is the previous chain head, and point the exception at it. -/
def hWrapContext (s : Store) (e : HExc) (file : String) (line : Int)
    (description : String) : Store × HExc :=
  (s ++ [⟨file, line, description, e.context⟩],
   { e with context := some s.length })

/-- Read a heap exception back as a pure `Exception` value. -/
def toException (s : Store) (e : HExc) : Exception :=
  { file := e.file, line := e.line, nature := e.nature,
    durability := e.durability, description := e.description,
    trace := e.trace, context := readChain s s.length e.context }

/-- Rendering of a heap exception: the §4.2 stringification of its pure
reading. -/
def hStringify (renderAddr : Nat → String) (s : Store) (e : HExc) : String :=
  stringifyException renderAddr (toException s e)

/-!
Theorems.  Shared helper lemmas first, then one theorem per claim.
-/

theorem concatAll_contextLines (cs : List Context) :
    concatAll (cs.map contextLine) = specContextLines cs := by
  induction cs with
  | nil => rfl
  | cons c rest ih =>
      simp only [List.map_cons, concatAll, specContextLines, contextLine, ih]

/-- Claim C1: stringification renders, in order, one `<file>:<line>: context:
<description>\n` line per stored context frame (innermost-attached-first),
then `<file>:<line>: <nature-text>`, with `" (temporary)"` iff TEMPORARY,
`": <description>"` iff the description is non-empty, then `"\nstack: "` and
the captured addresses as whitespace-separated tokens; in particular the
OS_ERROR/PERMANENT example with one wrapped context frame renders exactly as
the spec's end-to-end example. -/
theorem stringify_matches_spec_rendering :
    (∀ (renderAddr : Nat → String) (e : Exception),
        stringifyException renderAddr e = specRenderException renderAddr e) ∧
      stringifyException (fun a => "0x" ++ toString a)
          (wrapContext
            (mkException Nature.OS_ERROR Durability.PERMANENT "x.c" 10
              "disk full" [100, 200])
            "y.c" 20 "while flushing")
        = "y.c:20: context: while flushing\nx.c:10: error from OS: disk full\nstack: 0x100 0x200" := by
  constructor
  · intro renderAddr e
    unfold stringifyException specRenderException
    rw [concatAll_contextLines]
    by_cases hd : e.description = "" <;>
      simp [hd, String.append_assoc]
  · rfl

/-- Claim C8: wrapping with frame A and then frame B renders B's context line
before A's: `wrapContext` prepends, and stringification walks the chain from
the head. -/
theorem wrapContext_twice_renders_B_before_A (renderAddr : Nat → String)
    (e : Exception) (fileA : String) (lineA : Int) (descA : String)
    (fileB : String) (lineB : Int) (descB : String) :
    stringifyException renderAddr
        (wrapContext (wrapContext e fileA lineA descA) fileB lineB descB)
      = contextLine ⟨fileB, lineB, descB⟩
          ++ (contextLine ⟨fileA, lineA, descA⟩
          ++ stringifyException renderAddr e) := by
  unfold stringifyException wrapContext
  simp only [List.map_cons, concatAll, String.append_assoc]

/-- Claim C10: `Exception` construction is a total function that stores
nature, durability, file, line and description unchanged, captures at most
16 of the addresses the platform capability offers (possibly none), and
starts with an empty context chain. -/
theorem mkException_fields (nature : Nature) (durability : Durability)
    (file : String) (line : Int) (description : String) (osTrace : List Nat) :
    (mkException nature durability file line description osTrace).nature = nature
      ∧ (mkException nature durability file line description osTrace).durability = durability
      ∧ (mkException nature durability file line description osTrace).file = file
      ∧ (mkException nature durability file line description osTrace).line = line
      ∧ (mkException nature durability file line description osTrace).description = description
      ∧ (mkException nature durability file line description osTrace).context = []
      ∧ (mkException nature durability file line description osTrace).trace = osTrace.take 16
      ∧ (mkException nature durability file line description osTrace).trace.length ≤ 16 := by
  refine ⟨rfl, rfl, rfl, rfl, rfl, rfl, rfl, ?_⟩
  simp [mkException]

/-- Claim C2: when throwable propagation is disabled at build time or an
unwind is in progress, the root policy's recoverable-exception handler
produces exactly one `logMessage` call — dispatched to the thread's current
callback with contextDepth 0 — and raises nothing; otherwise it raises the
exception as a throwable value and makes no `logMessage` call. -/
theorem rootOnRecoverable_routes (noExceptions unwinding : Bool)
    (renderAddr : Nat → String) (tlc : Option Nat) (e : Exception) :
    (noExceptions = true ∨ unwinding = true →
        rootOnRecoverable noExceptions unwinding renderAddr tlc e
          = [RPEvent.logCall (getCB tlc) e.file e.line 0
              (logExceptionText renderAddr e)])
      ∧ (noExceptions = false ∧ unwinding = false →
          rootOnRecoverable noExceptions unwinding renderAddr tlc e
            = [RPEvent.raised e]) := by
  constructor
  · rintro (h | h) <;> simp [rootOnRecoverable, h, rootLogException]
  · rintro ⟨h1, h2⟩
    simp [rootOnRecoverable, h1, h2]

/-- Witness for C2: with propagation disabled and no unwind in progress, a
concrete recoverable exception yields the single expected log event; with
propagation enabled and no unwind, the single raise event. -/
theorem rootOnRecoverable_routes_witness :
    ((true : Bool) = true ∨ (false : Bool) = true)
      ∧ rootOnRecoverable true false toString none
          (mkException Nature.OS_ERROR Durability.PERMANENT "x.c" 10 "d" [])
          = [RPEvent.logCall (getCB none) "x.c" 10 0
              (logExceptionText toString
                (mkException Nature.OS_ERROR Durability.PERMANENT "x.c" 10 "d" []))]
      ∧ rootOnRecoverable false false toString none
          (mkException Nature.OS_ERROR Durability.PERMANENT "x.c" 10 "d" [])
          = [RPEvent.raised
              (mkException Nature.OS_ERROR Durability.PERMANENT "x.c" 10 "d" [])] :=
  ⟨Or.inl rfl,
   (rootOnRecoverable_routes true false toString none
      (mkException Nature.OS_ERROR Durability.PERMANENT "x.c" 10 "d" [])).1
     (Or.inl rfl),
   (rootOnRecoverable_routes false false toString none
      (mkException Nature.OS_ERROR Durability.PERMANENT "x.c" 10 "d" [])).2
     ⟨rfl, rfl⟩⟩

/-- Claim C6: the root policy's fatal-exception handler raises whenever
throwable propagation is enabled, ignoring the unwind-in-progress state
entirely; only with propagation disabled does it log, through the same
logging path (`logException`) that recoverable exceptions use. -/
theorem rootOnFatal_always_raises (unwA unwB : Bool)
    (renderAddr : Nat → String) (tlc : Option Nat) (e : Exception) :
    rootOnFatal false unwA renderAddr tlc e = [RPEvent.raised e]
      ∧ rootOnFatal false unwA renderAddr tlc e
          = rootOnFatal false unwB renderAddr tlc e
      ∧ rootOnFatal true unwA renderAddr tlc e
          = [rootLogException renderAddr tlc e]
      ∧ rootOnFatal true unwA renderAddr tlc e
          = rootOnRecoverable true unwA renderAddr tlc e := by
  refine ⟨rfl, rfl, rfl, rfl⟩

/-- Claim C5: the default `ExceptionCallback` constructor aborts (assertion
failure) exactly when the new object's address differs from a genuine stack
location by 4096 or more units; the root's delegating constructor performs no
such check, leaves the thread-local pointer untouched, and builds the
self-referential singleton. -/
theorem installNested_stack_check (thisAddr stackVarAddr : Int)
    (tlc : Option Nat) (newId : Nat) :
    (installNested thisAddr stackVarAddr tlc newId = none
        ↔ 4096 ≤ (thisAddr - stackVarAddr).natAbs)
      ∧ installRoot tlc = (⟨rootId, rootId⟩, tlc)
      ∧ (installRoot tlc).1.next = (installRoot tlc).1.id := by
  refine ⟨?_, rfl, rfl⟩
  unfold installNested stackCheckPasses
  by_cases h : thisAddr - stackVarAddr < 4096 ∧ thisAddr - stackVarAddr > -4096
  · simp [h]
    omega
  · simp [h]
    omega

/-- A concrete exception with one context frame, used to compare the logged
text against the full §4.2 rendering. -/
def demoWrapped : Exception :=
  wrapContext
    (mkException Nature.OS_ERROR Durability.PERMANENT "x.c" 10 "disk full" [1, 2])
    "y.c" 20 "while flushing"

/-- Counterexample to claim C3 as stated: for an exception with a context
frame, the text `logException` hands to `logMessage` is not the full §4.2
rendering — the context lines (and the file:line location, which travels as
separate `logMessage` arguments) are deliberately omitted
("We intentionally don't log the context…"). -/
theorem logged_text_is_not_full_rendering :
    rootOnRecoverable true false toString none demoWrapped
        = [RPEvent.logCall rootId "x.c" 10 0 (logExceptionText toString demoWrapped)]
      ∧ logExceptionText toString demoWrapped
          = "error from OS: disk full\nstack: 1 2"
      ∧ stringifyException toString demoWrapped
          = "y.c:20: context: while flushing\nx.c:10: error from OS: disk full\nstack: 1 2"
      ∧ logExceptionText toString demoWrapped
          ≠ stringifyException toString demoWrapped := by
  refine ⟨rfl, rfl, rfl, ?_⟩
  intro h
  exact absurd h (by decide)

/-- Claim C3 as amended: on the logging path the root policy makes one
`logMessage` call re-entering the thread's *current* callback chain, whose
text is the §4.2 rendering of the exception with its context chain stripped
and without the leading `<file>:<line>: ` location — file and line travel as
the separate `logMessage` arguments instead. -/
theorem logged_text_is_contextless_rendering (noExceptions unwinding : Bool)
    (renderAddr : Nat → String) (tlc : Option Nat) (e : Exception)
    (h : noExceptions = true ∨ unwinding = true) :
    rootOnRecoverable noExceptions unwinding renderAddr tlc e
        = [RPEvent.logCall (getCB tlc) e.file e.line 0
            (logExceptionText renderAddr e)]
      ∧ e.file ++ ":" ++ toString e.line ++ ": " ++ logExceptionText renderAddr e
          = stringifyException renderAddr { e with context := [] } := by
  constructor
  · rcases h with h | h <;> simp [rootOnRecoverable, h, rootLogException]
  · unfold logExceptionText stringifyException
    simp [concatAll, String.append_assoc]

/-- Witness for the amended C3 at a concrete input. -/
theorem logged_text_is_contextless_rendering_witness :
    ((true : Bool) = true ∨ (false : Bool) = true)
      ∧ rootOnRecoverable true false toString none demoWrapped
          = [RPEvent.logCall (getCB none) demoWrapped.file demoWrapped.line 0
              (logExceptionText toString demoWrapped)]
      ∧ demoWrapped.file ++ ":" ++ toString demoWrapped.line ++ ": "
            ++ logExceptionText toString demoWrapped
          = stringifyException toString { demoWrapped with context := [] } :=
  ⟨Or.inl rfl,
   (logged_text_is_contextless_rendering true false toString none demoWrapped
      (Or.inl rfl)).1,
   (logged_text_is_contextless_rendering true false toString none demoWrapped
      (Or.inl rfl)).2⟩

/-- Claim C9: the root `logMessage` prefixes the text with exactly
`contextDepth` underscores when `contextDepth > 0` (so depth 3 on "hello"
sends "___hello") and leaves it unmodified otherwise; the write loop drops
exactly the bytes a positive `write` result reports and retries, and returns
silently — giving up with the remainder unsent — as soon as a `write` result
is non-positive. -/
theorem rootLogMessage_behaviour (contextDepth : Int) (text : String)
    (rem : List Char) (n : Int) (rest : List Int) :
    (0 < contextDepth →
        indentText contextDepth text
          = String.mk (List.replicate contextDepth.toNat '_') ++ text)
      ∧ (contextDepth ≤ 0 → indentText contextDepth text = text)
      ∧ indentText 3 "hello" = "___hello"
      ∧ rootLogMessage contextDepth text rest
          = writeLoop (!(indentText contextDepth text).isEmpty)
              (indentText contextDepth text).toList rest
      ∧ (0 < n →
          writeLoop true rem (n :: rest)
            = writeLoop true (rem.drop n.toNat) rest)
      ∧ (n ≤ 0 → writeLoop true rem (n :: rest) = some rem)
      ∧ writeLoop false rem rest = some rem := by
  refine ⟨?_, ?_, rfl, rfl, ?_, ?_, ?_⟩
  · intro h
    simp [indentText, h]
  · intro h
    simp [indentText, show ¬ 0 < contextDepth by omega]
  · intro h
    simp [writeLoop, show ¬ n ≤ 0 by omega]
  · intro h
    simp [writeLoop, h]
  · cases rest <;> rfl

/-- Witness for C9: depth 3 on "hello" yields "___hello"; a write result of
2 drops two characters and retries; a write result of 0 returns at once with
the remainder unsent. -/
theorem rootLogMessage_behaviour_witness :
    (0 < (3 : Int))
      ∧ indentText 3 "hello"
          = String.mk (List.replicate (3 : Int).toNat '_') ++ "hello"
      ∧ writeLoop true "ab".toList ([2] : List Int)
          = writeLoop true ("ab".toList.drop (2 : Int).toNat) []
      ∧ ((0 : Int) ≤ 0)
      ∧ writeLoop true "ab".toList ([0, 7] : List Int) = some "ab".toList :=
  ⟨by decide,
   (rootLogMessage_behaviour 3 "hello" [] 1 []).1 (by decide),
   (rootLogMessage_behaviour 3 "hello" "ab".toList 2 []).2.2.2.2.1 (by decide),
   by decide,
   (rootLogMessage_behaviour 3 "hello" "ab".toList 0 [7]).2.2.2.2.2.1 (by decide)⟩

theorem destroyAll_installAll (ids : List Nat) :
    ∀ tlc : Option Nat, ids.Nodup → (∀ i ∈ ids, i ≠ getCB tlc) →
      destroyAll (installAll tlc ids).1 (installAll tlc ids).2
        = match ids with
          | [] => tlc
          | _ :: _ => some (getCB tlc) := by
  induction ids with
  | nil =>
      intro tlc _ _
      rfl
  | cons i rest ih =>
      intro tlc hnd hfresh
      have hndRest : rest.Nodup := (List.nodup_cons.mp hnd).2
      have hiNot : i ∉ rest := (List.nodup_cons.mp hnd).1
      have hfreshRest : ∀ j ∈ rest, j ≠ getCB (some i) := by
        intro j hj
        simp only [getCB, Option.getD_some]
        intro hji
        exact hiNot (hji ▸ hj)
      have hrest := ih (some i) hndRest hfreshRest
      simp only [installAll, destroyAll]
      rw [hrest]
      have hne : getCB tlc ≠ i := fun h => hfresh i (by simp) h.symm
      cases rest <;> simp [destroyCB, hne]

/-- Claim C4: constructing N nested callback overrides and destroying them in
reverse order restores the callback returned by the current-lookup to exactly
what it was before the first construction (the ids being distinct live
objects, none equal to the pre-existing current callback); and destroying any
single non-root callback sets the thread's current pointer to that callback's
`next`. -/
theorem callback_stack_lifo (tlc : Option Nat) (ids : List Nat) (cb : Callback)
    (hnd : ids.Nodup) (hfresh : ∀ i ∈ ids, i ≠ getCB tlc) :
    getCB (destroyAll (installAll tlc ids).1 (installAll tlc ids).2)
        = getCB tlc
      ∧ (cb.next ≠ cb.id → destroyCB cb tlc = some cb.next) := by
  constructor
  · rw [destroyAll_installAll ids tlc hnd hfresh]
    cases ids <;> simp [getCB]
  · intro h
    unfold destroyCB
    rw [if_neg h]

/-- Witness for C4: two nested overrides (ids 1 and 2) on a thread whose
pointer is unset (current-lookup yields the root, id 0); after installing
both and destroying them in reverse, the current-lookup again yields the
root; and destroying the non-root callback ⟨5, 3⟩ restores the pointer to
its `next`. -/
theorem callback_stack_lifo_witness :
    ([1, 2] : List Nat).Nodup
      ∧ (∀ i ∈ ([1, 2] : List Nat), i ≠ getCB none)
      ∧ getCB (destroyAll (installAll none [1, 2]).1 (installAll none [1, 2]).2)
          = getCB none
      ∧ ((⟨5, 3⟩ : Callback).next ≠ (⟨5, 3⟩ : Callback).id →
          destroyCB ⟨5, 3⟩ (some 5) = some (⟨5, 3⟩ : Callback).next) :=
  ⟨by decide, by decide,
   (callback_stack_lifo none [1, 2] ⟨5, 3⟩ (by decide) (by decide)).1,
   (callback_stack_lifo (some 5) [1, 2] ⟨5, 3⟩ (by decide) (by decide)).2⟩

theorem readChain_none (s : Store) (fuel : Nat) :
    readChain s fuel none = [] := by
  cases fuel <;> rfl

theorem readChain_succ (s : Store) (fuel : Nat) (i : Nat) :
    readChain s (fuel + 1) (some i)
      = match s.get? i with
        | none => []
        | some node =>
            ⟨node.file, node.line, node.description⟩
              :: readChain s fuel node.next := rfl

theorem copyChain_succ (s : Store) (fuel : Nat) (i : Nat) :
    copyChain s (fuel + 1) (some i)
      = match s.get? i with
        | none => (s, none)
        | some node =>
            ((copyChain s fuel node.next).1
                ++ [⟨node.file, node.line, node.description,
                     (copyChain s fuel node.next).2⟩],
             some (copyChain s fuel node.next).1.length) := rfl

theorem readChain_fuel_eq (s : Store) (hwf : StoreWF s) (i : Nat) :
    ∀ fuelA fuelB, i < fuelA → i < fuelB →
      readChain s fuelA (some i) = readChain s fuelB (some i) := by
  induction i using Nat.strong_induction_on with
  | _ i IH =>
    intro fuelA fuelB hA hB
    obtain ⟨a, rfl⟩ : ∃ a, fuelA = a + 1 := ⟨fuelA - 1, by omega⟩
    obtain ⟨b, rfl⟩ : ∃ b, fuelB = b + 1 := ⟨fuelB - 1, by omega⟩
    rw [readChain_succ, readChain_succ]
    cases hget : s.get? i with
    | none => rfl
    | some node =>
        dsimp only
        cases hnext : node.next with
        | none =>
            rw [readChain_none, readChain_none]
        | some j =>
            have hj : j < i := hwf i node j hget hnext
            rw [IH j hj a b (by omega) (by omega)]

theorem readChain_append (s t : Store) (hwf : StoreWF s) :
    ∀ (fuel : Nat) (p : Option Nat), PtrOK s p →
      readChain (s ++ t) fuel p = readChain s fuel p := by
  intro fuel
  induction fuel with
  | zero =>
      intro p _
      cases p <;> rfl
  | succ f IH =>
      intro p hp
      cases p with
      | none => rfl
      | some i =>
          have hi : i < s.length := hp i rfl
          rw [readChain_succ, readChain_succ, List.get?_append hi]
          cases hget : s.get? i with
          | none => rfl
          | some node =>
              dsimp only
              rw [IH node.next fun j hj =>
                Nat.lt_trans (hwf i node j hget hj) hi]

theorem storeWF_snoc (s : Store) (node : CNode) (hwf : StoreWF s)
    (hnode : ∀ j, node.next = some j → j < s.length) :
    StoreWF (s ++ [node]) := by
  intro i nd j hget hnext
  rcases Nat.lt_trichotomy i s.length with hi | hi | hi
  · rw [List.get?_append hi] at hget
    exact hwf i nd j hget hnext
  · subst hi
    rw [List.get?_concat_length] at hget
    cases hget
    exact hnode j hnext
  · rw [List.get?_eq_none.mpr (by simp; omega)] at hget
    cases hget

theorem copyChain_sound (s : Store) (hwf : StoreWF s) :
    ∀ (fuel : Nat) (p : Option Nat), PtrOK s p →
      (∀ i, p = some i → i < fuel) →
      ∃ ext, (copyChain s fuel p).1 = s ++ ext
        ∧ StoreWF (s ++ ext)
        ∧ PtrOK (s ++ ext) (copyChain s fuel p).2
        ∧ ∀ g, (∀ i, (copyChain s fuel p).2 = some i → i < g) →
            readChain (s ++ ext) g (copyChain s fuel p).2
              = readChain s fuel p := by
  intro fuel
  induction fuel with
  | zero =>
      intro p hp hf
      cases p with
      | none =>
          refine ⟨[], by simp [copyChain], by simpa using hwf, ?_, ?_⟩
          · intro i h
            cases h
          · intro g _
            cases g <;> rfl
      | some i => exact absurd (hf i rfl) (by omega)
  | succ f IH =>
      intro p hp hf
      cases p with
      | none =>
          refine ⟨[], by simp [copyChain], by simpa using hwf, ?_, ?_⟩
          · intro i h
            cases h
          · intro g _
            cases g <;> rfl
      | some i =>
          have hi : i < s.length := hp i rfl
          obtain ⟨node, hget⟩ : ∃ node, s.get? i = some node :=
            ⟨s.get ⟨i, hi⟩, List.get?_eq_get hi⟩
          have hnextP : PtrOK s node.next := fun j hj =>
            Nat.lt_trans (hwf i node j hget hj) hi
          have hnextF : ∀ j, node.next = some j → j < f := by
            intro j hj
            have h1 := hwf i node j hget hj
            have h2 := hf i rfl
            omega
          obtain ⟨ext0, heq0, hwf0, hptr0, hread0⟩ := IH node.next hnextP hnextF
          rw [copyChain_succ, hget]
          simp only
          refine ⟨ext0 ++ [⟨node.file, node.line, node.description,
            (copyChain s f node.next).2⟩], ?_, ?_, ?_, ?_⟩
          · rw [heq0, List.append_assoc]
          · rw [← List.append_assoc, ← heq0]
            refine storeWF_snoc _ _ (heq0 ▸ hwf0) ?_
            intro j hj
            exact heq0 ▸ hptr0 j hj
          · intro j hj
            cases hj
            rw [← List.append_assoc, ← heq0]
            simp
          · intro g hg
            have hlen : (copyChain s f node.next).1.length < g :=
              hg (copyChain s f node.next).1.length rfl
            obtain ⟨g0, rfl⟩ : ∃ g0, g = g0 + 1 := ⟨g - 1, by omega⟩
            rw [← List.append_assoc, ← heq0, readChain_succ,
              List.get?_concat_length]
            simp only
            rw [readChain_succ, hget]
            simp only
            have hstep : readChain ((copyChain s f node.next).1
                  ++ [⟨node.file, node.line, node.description,
                       (copyChain s f node.next).2⟩]) g0
                  (copyChain s f node.next).2
                = readChain (copyChain s f node.next).1 g0
                    (copyChain s f node.next).2 := by
              rw [heq0]
              exact readChain_append (s ++ ext0) _ hwf0 g0 _ hptr0
            rw [hstep, heq0]
            refine congrArg (List.cons _) (hread0 g0 ?_)
            intro j hj
            have hjlt := hptr0 j hj
            rw [← heq0] at hjlt
            omega

theorem readChain_big_fuel (s : Store) (hwf : StoreWF s) (p : Option Nat)
    (hp : PtrOK s p) (g : Nat) (hg : s.length ≤ g) :
    readChain s g p = readChain s s.length p := by
  cases p with
  | none => rw [readChain_none, readChain_none]
  | some i =>
      have hi : i < s.length := hp i rfl
      exact readChain_fuel_eq s hwf i g s.length (by omega) hi

theorem storeWF_single (node : CNode) (h : node.next = none) :
    StoreWF [node] := by
  intro i nd j hget hnext
  cases i with
  | zero =>
      have heq : some node = some nd := hget
      cases heq
      rw [h] at hnext
      exact Option.noConfusion hnext
  | succ n =>
      have heq : (none : Option CNode) = some nd := hget
      exact Option.noConfusion heq

/-- Claim C7: copying an `Exception` deep-copies the context chain and trace,
so the copy renders byte-identically to the original, and wrapping further
context onto the copy (which only allocates fresh nodes and repoints the
copy) leaves the original's rendered string unchanged. -/
theorem copy_is_deep (renderAddr : Nat → String) (s : Store) (e : HExc)
    (file : String) (line : Int) (description : String)
    (hwf : StoreWF s) (hp : PtrOK s e.context) :
    hStringify renderAddr (copyHExc s e).1 (copyHExc s e).2
        = hStringify renderAddr s e
      ∧ hStringify renderAddr
          (hWrapContext (copyHExc s e).1 (copyHExc s e).2
            file line description).1 e
        = hStringify renderAddr s e := by
  obtain ⟨ext, heq, hwf2, hptr2, hread⟩ :=
    copyChain_sound s hwf s.length e.context hp hp
  have hctx : readChain (copyChain s s.length e.context).1
      (copyChain s s.length e.context).1.length
      (copyChain s s.length e.context).2
      = readChain s s.length e.context := by
    rw [heq]
    exact hread (s ++ ext).length hptr2
  constructor
  · unfold hStringify toException copyHExc
    dsimp only
    rw [hctx]
  · unfold hStringify toException hWrapContext copyHExc
    dsimp only
    rw [heq, List.append_assoc]
    have hA := readChain_append s
      (ext ++ [(⟨file, line, description,
        (copyChain s s.length e.context).2⟩ : CNode)])
      hwf
      ((s ++ (ext ++ [(⟨file, line, description,
        (copyChain s s.length e.context).2⟩ : CNode)])).length)
      e.context hp
    rw [hA, readChain_big_fuel s hwf e.context hp _ (by simp)]

/-- A one-node store and an exception pointing at it, for the C7 witness. -/
def demoStore : Store := [⟨"a.c", 1, "outer", none⟩]

/-- The heap exception used in the C7 witness. -/
def demoHExc : HExc :=
  ⟨"x.c", 10, Nature.OS_ERROR, Durability.PERMANENT, "disk full", [1, 2], some 0⟩

/-- Witness for C7 at a concrete one-frame exception. -/
theorem copy_is_deep_witness :
    StoreWF demoStore ∧ PtrOK demoStore demoHExc.context
      ∧ (hStringify toString (copyHExc demoStore demoHExc).1
            (copyHExc demoStore demoHExc).2
          = hStringify toString demoStore demoHExc
        ∧ hStringify toString
            (hWrapContext (copyHExc demoStore demoHExc).1
              (copyHExc demoStore demoHExc).2 "y.c" 20 "while flushing").1
            demoHExc
          = hStringify toString demoStore demoHExc) :=
  ⟨storeWF_single ⟨"a.c", 1, "outer", none⟩ rfl,
   fun i h => by
     have heq : some 0 = some i := h
     cases heq
     exact Nat.zero_lt_one,
   copy_is_deep toString demoStore demoHExc "y.c" 20 "while flushing"
     (storeWF_single ⟨"a.c", 1, "outer", none⟩ rfl)
     (fun i h => by
       have heq : some 0 = some i := h
       cases heq
       exact Nat.zero_lt_one)⟩

end KjException
